import Mathlib

set_option maxRecDepth 20000

/-!
Verification of `src/MortgageModel.py` (personal-finance repository).

Shallow embedding notes:
* Python numbers are modelled by `PyNum`: a Python `int` (`pint`) or a
  float / numpy scalar (`pfloat`), both carrying exact rational values.
  The source compares with `is 0` / `is 1` (object identity); under
  CPython's small-integer caching this is true exactly for Python ints of
  that value and false for floats and numpy scalars, which `isLit`
  models.  numpy `arange` elements are numpy scalars, hence `pfloat`.
* Python dicts with optional keys become structures of `Option ℚ`
  fields; a missing-key access raises `KeyError`, division by zero
  raises `ZeroDivisionError`, and the explicit `raise ValueError` calls
  of the loaders become `valueError`.  Fallible code returns `Except`.
* `Mortgage.__init__` mutates its `asset` dict in place (filling
  defaults); `mortgageInit` returns the mortgage together with the
  updated dict, which models the caller-visible mutation and the shared
  mutable default argument.
* `numpy.pmt(rate, nper, pv)` (with `fv = 0`, `when = 'end'`) is
  `-(pv*(1+rate)^nper) / ((( 1+rate)^nper - 1)/rate)`, and `-pv/nper`
  when `rate == 0`.
* `optimizeTotalHomeValue` is recursive with no structural measure (and
  indeed does not terminate on some inputs), so it is embedded with a
  fuel parameter counting call frames: `none` means the fuel ran out.
-/

/-- A Python number: an `int` or a float / numpy scalar. -/
inductive PyNum where
  | pint (z : ℤ)
  | pfloat (q : ℚ)
deriving DecidableEq

/-- Numeric value of a Python number. -/
def PyNum.toRat : PyNum → ℚ
  | .pint z => (z : ℚ)
  | .pfloat q => q

/-- `v is n` for a small int literal `n` (CPython caches ints -5..256, so
identity holds exactly for Python ints of that value; floats and numpy
scalars are distinct objects). -/
def PyNum.isLit (n : ℤ) : PyNum → Bool
  | .pint z => z = n
  | .pfloat _ => false

/-- Python errors raised by the modelled code. -/
inductive PyErr where
  | valueError
  | keyError
  | zeroDivisionError
deriving DecidableEq

/-- `d[k]` on a dict field: `KeyError` when the key is absent. -/
def getKey (o : Option ℚ) : Except PyErr ℚ :=
  match o with
  | some v => .ok v
  | none => .error .keyError

/-- The `financing` dict (keys may be absent). -/
structure FinDict where
  interest_rate : Option ℚ := none
  mortgage_term : Option ℚ := none
  closing_cost : Option ℚ := none
  down_payment : Option ℚ := none
deriving DecidableEq

/-- The `asset` dict (keys may be absent). -/
structure AssetDict where
  current_value : Option ℚ := none
  tax_rate : Option ℚ := none
  hoa : Option ℚ := none
deriving DecidableEq

/-- The `asset` dict after `Mortgage.__init__`, which always fills the
three keys `current_value`, `tax_rate`, `hoa`. -/
structure AssetRec where
  current_value : ℚ
  tax_rate : ℚ
  hoa : ℚ
deriving DecidableEq

/-- The `restrictions` dict as supplied by the caller. -/
structure RestDict where
  savings : Option ℚ := none
  max_monthly_payment : Option ℚ := none
  max_mortgage : Option ℚ := none
  hoa : Option ℚ := none
  tax_rate : Option ℚ := none
deriving DecidableEq

/-- The restrictions dict after `MortgageModel.loadRestrictions`. -/
structure RestLoaded where
  savings : ℚ
  max_monthly_payment : ℚ
  max_mortgage : ℚ
  hoa : ℚ
  tax_rate : ℚ
deriving DecidableEq

/-- The loaded restrictions dict viewed again as a plain dict (the
search recursion passes the loaded dict back through the loader). -/
def restToDict (r : RestLoaded) : RestDict :=
  { savings := some r.savings
    max_monthly_payment := some r.max_monthly_payment
    max_mortgage := some r.max_mortgage
    hoa := some r.hoa
    tax_rate := some r.tax_rate }

/-- The financing dict after `MortgageModel.loadFinancing`. -/
structure FinLoaded where
  interest_rate : ℚ
  mortgage_term : ℚ
  closing_cost : ℚ
  down_payment : ℚ
deriving DecidableEq

/-- A `Mortgage` object: `home_value`, its `financing` dict (as given),
and its `asset` dict (always fully keyed after `__init__`). -/
structure Mortgage where
  home_value : PyNum
  financing : FinDict
  asset : AssetRec
deriving DecidableEq

/-- `Mortgage.__init__(home_value, financing, asset)`: fills the missing
`asset` keys in place (`current_value := home_value`, `tax_rate := 0.01`,
`hoa := 0`) and stores the three attributes.  Returns the object together
with the (mutated) asset dict seen by the caller. -/
def mortgageInit (home_value : PyNum) (financing : FinDict) (asset : AssetDict) :
    Mortgage × AssetDict :=
  let a1 := match asset.current_value with
    | none => { asset with current_value := some home_value.toRat }
    | some _ => asset
  let a2 := match a1.tax_rate with
    | none => { a1 with tax_rate := some 0.01 }
    | some _ => a1
  let a3 := match a2.hoa with
    | none => { a2 with hoa := some 0 }
    | some _ => a2
  (⟨home_value, financing,
    ⟨a3.current_value.getD 0, a3.tax_rate.getD 0, a3.hoa.getD 0⟩⟩, a3)

/-- `numpy.pmt rate nper pv` with `fv = 0`, `when = 'end'`. -/
def pmt (rate : ℚ) (nper : ℕ) (pv : ℚ) : ℚ :=
  if rate = 0 then -pv / (nper : ℚ)
  else -(pv * (1 + rate) ^ nper) / (((1 + rate) ^ nper - 1) / rate)

/-- `Mortgage.pmi(mortgage_size, percent_down)`: the tiered PMI schedule. -/
def Mortgage.pmi (mortgage_size percent_down : ℚ) : ℚ :=
  if percent_down ≥ 0.2 then 0
  else if percent_down ≥ 0.15 then mortgage_size * 0.0044
  else if percent_down ≥ 0.1 then mortgage_size * 0.0059
  else if percent_down ≥ 0.05 then mortgage_size * 0.0076
  else mortgage_size * 0.0098

/-- Result of `Mortgage.cost()`: the empty dict sentinel or the full
cost-breakdown dict. -/
structure CostBreakdown where
  initial_cost : ℚ
  closing_cost : ℚ
  down_payment_cost : ℚ
  percent_down : ℚ
  mortgage_size : ℚ
  mortgage_payment : ℚ
  pmi_payment : ℚ
  tax_payment : ℚ
  insurance_payment : ℚ
  hoa : ℚ
  monthly_payment : ℚ
deriving DecidableEq

inductive CostRes where
  | empty
  | full (c : CostBreakdown)
deriving DecidableEq

/-- `Mortgage.cost()`.  The guard is `self.home_value is 0` (identity
with the int literal `0`); the dict accesses and the division by
`asset_value` follow the source's evaluation order, and `numpy.pmt` is
called with the hard-coded `12*30` periods. -/
def Mortgage.cost (m : Mortgage) : Except PyErr CostRes :=
  if m.home_value.isLit 0 then .ok .empty
  else do
    let asset_value := m.asset.current_value
    let down_payment ← getKey m.financing.down_payment
    let closing_cost ← getKey m.financing.closing_cost
    let mortgage_size := asset_value - down_payment
    let initial_cost := mortgage_size * closing_cost + down_payment
    let percent_down ←
      if asset_value = 0 then Except.error PyErr.zeroDivisionError
      else Except.ok (down_payment / asset_value)
    let pmi_payment := Mortgage.pmi mortgage_size percent_down / 12
    let interest_rate ← getKey m.financing.interest_rate
    let mortgage_payment := |pmt (interest_rate / 12) (12 * 30) mortgage_size|
    let tax_payment := m.asset.current_value * m.asset.tax_rate / 12
    let insurance_cost := 0.0035 * asset_value / 12
    .ok (.full
      { initial_cost := initial_cost
        closing_cost := initial_cost - down_payment
        down_payment_cost := down_payment
        percent_down := percent_down
        mortgage_size := mortgage_size
        mortgage_payment := mortgage_payment
        pmi_payment := pmi_payment
        tax_payment := tax_payment
        insurance_payment := insurance_cost
        hoa := m.asset.hoa
        monthly_payment :=
          mortgage_payment + pmi_payment + tax_payment + insurance_cost + m.asset.hoa })

/-- `Mortgage.isValid()`: `home_value > 0`. -/
def Mortgage.isValid (m : Mortgage) : Bool :=
  m.home_value.toRat > 0

/-- `MortgageModel.loadRestrictions`. -/
def loadRestrictions (r : RestDict) : Except PyErr RestLoaded :=
  match r.savings with
  | none => .error .valueError
  | some s =>
    if s < 10000 then .error .valueError
    else if r.max_monthly_payment.isNone && r.max_mortgage.isNone then .error .valueError
    else .ok
      { savings := s
        max_monthly_payment := r.max_monthly_payment.getD 999999999999999999
        max_mortgage := r.max_mortgage.getD 999999999999999999
        hoa := r.hoa.getD 0
        tax_rate := r.tax_rate.getD 0.0125 }

/-- `MortgageModel.loadFinancing` (operating on the model's financing dict). -/
def loadFinancing (f : FinDict) : Except PyErr FinLoaded :=
  match f.interest_rate with
  | none => .error .valueError
  | some ir => .ok
      { interest_rate := ir
        mortgage_term := f.mortgage_term.getD (30 * 12)
        closing_cost := f.closing_cost.getD 0.05
        down_payment := f.down_payment.getD 0 }

/-- `MortgageModel.getMortgage(home_value, restrictions)`: derives the
down payment `home_value - (savings - home_value)/(closing_cost - 1)`,
returns the invalid sentinel `Mortgage(0, {}, {})` when it is negative,
otherwise a mortgage on the target home value. -/
def getMortgage (fin : FinDict) (home_value : PyNum) (restrictions : RestDict) :
    Except PyErr Mortgage := do
  let f ← loadFinancing fin
  let r ← loadRestrictions restrictions
  let h := home_value.toRat
  let dp ←
    if f.closing_cost - 1 = 0 then Except.error PyErr.zeroDivisionError
    else Except.ok (h - (r.savings - h) / (f.closing_cost - 1))
  if dp < 0 then
    .ok (mortgageInit (.pint 0) {} {}).1
  else
    .ok (mortgageInit home_value
      { interest_rate := some f.interest_rate
        mortgage_term := some f.mortgage_term
        closing_cost := some f.closing_cost
        down_payment := some dp }
      { current_value := some h
        tax_rate := some r.tax_rate
        hoa := some r.hoa }).1

/-- `numpy.arange(start, stop, step)` length for the positive steps used
by the source: `⌈(stop-start)/step⌉` when positive, else `0`. -/
def arangeCount (start stop step : ℚ) : ℕ :=
  if 0 < step ∧ start < stop then (⌈(stop - start) / step⌉).toNat else 0

/-- `numpy.arange(start, stop, step)` as the list of its values. -/
def arangeQ (start stop step : ℚ) : List ℚ :=
  (List.range (arangeCount start stop step)).map fun k : ℕ => start + (k : ℚ) * step

/-- The search's best-so-far record: `{"value": …, "mortgage": …,
"cost": …}`.  Of the stored cost dict only `"monthly_payment"` is ever
read (and the initial record's cost dict has only that key), so the
record keeps that entry. -/
structure BestRec where
  value : PyNum
  mortgage : Mortgage
  cost_monthly : ℚ
deriving DecidableEq

/-- The initial best record `{"value": 0, "mortgage": Mortgage(0, {}, {}),
"cost": {"monthly_payment": 0}}`. -/
def bestInit : BestRec :=
  ⟨.pint 0, (mortgageInit (.pint 0) {} {}).1, 0⟩

/-- One iteration of the inner percent-down sweep of
`optimizeTotalHomeValue` (the loop index `i` is not used by the body).
State: the best-so-far record and this outer iteration's
`found_a_match` flag. -/
def innerBody (fin : FinDict) (r : RestLoaded) (j : ℚ) (s : BestRec × Bool) :
    Except PyErr (BestRec × Bool) := do
  let mortgage ← getMortgage fin (.pfloat j) (restToDict r)
  if !mortgage.isValid then .ok s
  else do
    let cres ← mortgage.cost
    match cres with
    | .empty => .error .keyError
    | .full c =>
      let low_enough_monthly_payment := c.monthly_payment ≤ r.max_monthly_payment
      let have_enough_funds := c.initial_cost ≤ r.savings
      let is_mortgage_too_big := c.mortgage_size > r.max_mortgage
      let is_same_value := j = s.1.value.toRat
      let is_lower_monthly_payment := c.monthly_payment < s.1.cost_monthly
      if is_mortgage_too_big then .ok s
      else if (low_enough_monthly_payment ∧ have_enough_funds) ∨
          (is_same_value ∧ is_lower_monthly_payment) then
        if s.1.value.toRat < j then .ok (⟨.pfloat j, mortgage, c.monthly_payment⟩, true)
        else .ok s
      else .ok s

/-- The inner sweep, iterated `k` times (the body ignores the sweep
value, so only the iteration count matters). -/
def innerN (fin : FinDict) (r : RestLoaded) (j : ℚ) :
    ℕ → BestRec × Bool → Except PyErr (BestRec × Bool)
  | 0, s => .ok s
  | k + 1, s =>
    match innerBody fin r j s with
    | .error e => .error e
    | .ok s1 => innerN fin r j k s1

/-- Number of iterations of `numpy.arange(0.05, 1.01, 0.001)`. -/
def innerCount : ℕ := arangeCount 0.05 1.01 0.001

/-- The outer home-value loop of `optimizeTotalHomeValue`, parametrised
by the inner sweep's iteration count `ic`.  Returns the final best
record and the (possibly clamped) upper bound: on an outer iteration
with no match the loop breaks with `upper_bound = j`. -/
def outerLoop (ic : ℕ) (fin : FinDict) (r : RestLoaded) :
    List ℚ → ℚ → BestRec → Except PyErr (BestRec × ℚ)
  | [], ub, best => .ok (best, ub)
  | j :: rest, ub, best =>
    match innerN fin r j ic (best, false) with
    | .error e => .error e
    | .ok (best1, found) =>
      if found then outerLoop ic fin r rest ub best1 else .ok (best1, j)

/-- `MortgageModel.optimizeTotalHomeValue(restrictions, lower_bound,
upper_bound, step)` with a fuel bound on the recursion depth
(`none` = fuel exhausted), parametrised by the inner sweep count `ic`.
`lower_bound is 0` (entry call) resets the bounds; `step < 50` clamps
the step to the int `1`; `step is 1` stops the recursion. -/
def optimizeFuelGen (ic : ℕ) :
    ℕ → FinDict → RestDict → PyNum → PyNum → PyNum → Option (Except PyErr Mortgage)
  | 0, _, _, _, _, _ => none
  | n + 1, fin, restrictions, lower_bound, upper_bound, step =>
    match loadRestrictions restrictions with
    | .error e => some (.error e)
    | .ok r =>
      let t : ℚ × ℚ × PyNum :=
        if lower_bound.isLit 0 then (r.savings, (9999999 : ℚ), PyNum.pint 100000)
        else (lower_bound.toRat, upper_bound.toRat, step)
      let lb := t.1
      let ub := t.2.1
      let st := if t.2.2.toRat < 50 then PyNum.pint 1 else t.2.2
      match outerLoop ic fin r (arangeQ lb ub st.toRat) ub bestInit with
      | .error e => some (.error e)
      | .ok (best, ub2) =>
        if st.isLit 1 then some (.ok best.mortgage)
        else
          optimizeFuelGen ic n fin (restToDict r) best.value (.pfloat ub2)
            (.pfloat (st.toRat / 2))

/-- `optimizeTotalHomeValue` with the source's inner sweep count. -/
def optimizeFuel :
    ℕ → FinDict → RestDict → PyNum → PyNum → PyNum → Option (Except PyErr Mortgage) :=
  optimizeFuelGen innerCount

deriving instance DecidableEq for Except

/-- The down payment `getMortgage` derives for a target home value `h`. -/
def derivedDown (f : FinLoaded) (r : RestLoaded) (h : ℚ) : ℚ :=
  h - (r.savings - h) / (f.closing_cost - 1)

/-- The mortgage `getMortgage` builds in its nonnegative-down-payment branch. -/
def builtMortgage (f : FinLoaded) (r : RestLoaded) (hv : PyNum) : Mortgage :=
  ⟨hv, ⟨some f.interest_rate, some f.mortgage_term, some f.closing_cost,
    some (derivedDown f r hv.toRat)⟩, ⟨hv.toRat, r.tax_rate, r.hoa⟩⟩

/-- A candidate home value `q` that the search loop accepts: its derived
mortgage is valid, prices successfully, is not rejected by the
`max_mortgage` cap, and meets the monthly-payment and savings bounds. -/
def acceptsCandidate (fin : FinDict) (r : RestLoaded) (q : ℚ) : Prop :=
  ∃ m c, getMortgage fin (.pfloat q) (restToDict r) = .ok m ∧ m.isValid = true ∧
    m.cost = .ok (.full c) ∧ ¬ (c.mortgage_size > r.max_mortgage) ∧
    c.monthly_payment ≤ r.max_monthly_payment ∧ c.initial_cost ≤ r.savings

/-- Loop invariant on the best-so-far record: either still the initial
record, or it holds an accepted candidate (used for the termination
analysis of the search). -/
def goodBest (fin : FinDict) (r : RestLoaded) (b : BestRec) : Prop :=
  b = bestInit ∨
    ∃ q, b.value = .pfloat q ∧ 0 < q ∧ acceptsCandidate fin r q

/-- Loop invariant on the best-so-far record: a valid best mortgage
satisfies all three search constraints (used for the search-winner
soundness analysis). -/
def constrainedBest (r : RestLoaded) (b : BestRec) : Prop :=
  b.mortgage.isValid = true →
    ∃ c, b.mortgage.cost = .ok (.full c) ∧
      c.monthly_payment ≤ r.max_monthly_payment ∧
      c.initial_cost ≤ r.savings ∧ c.mortgage_size ≤ r.max_mortgage

/- ------------------------------------------------------------------ -/
/- Theorems.                                                          -/
/- ------------------------------------------------------------------ -/

/-- `Mortgage.__init__` with a fully-keyed asset dict changes nothing. -/
theorem mortgageInit_all_some (hv : PyNum) (fin : FinDict) (cv tr ho : ℚ) :
    mortgageInit hv fin ⟨some cv, some tr, some ho⟩ =
      (⟨hv, fin, ⟨cv, tr, ho⟩⟩, ⟨some cv, some tr, some ho⟩) := rfl

/-- Evaluation of `Mortgage.cost` on a mortgage whose financing dict is
fully keyed and whose asset value is nonzero. -/
theorem cost_eval (hv : PyNum) (ir mt cc dp : ℚ) (a : AssetRec)
    (hlit : hv.isLit 0 = false) (hav : a.current_value ≠ 0) :
    Mortgage.cost ⟨hv, ⟨some ir, some mt, some cc, some dp⟩, a⟩ = .ok (.full
      { initial_cost := (a.current_value - dp) * cc + dp
        closing_cost := (a.current_value - dp) * cc + dp - dp
        down_payment_cost := dp
        percent_down := dp / a.current_value
        mortgage_size := a.current_value - dp
        mortgage_payment := |pmt (ir / 12) (12 * 30) (a.current_value - dp)|
        pmi_payment := Mortgage.pmi (a.current_value - dp) (dp / a.current_value) / 12
        tax_payment := a.current_value * a.tax_rate / 12
        insurance_payment := 0.0035 * a.current_value / 12
        hoa := a.hoa
        monthly_payment :=
          |pmt (ir / 12) (12 * 30) (a.current_value - dp)| +
            Mortgage.pmi (a.current_value - dp) (dp / a.current_value) / 12 +
            a.current_value * a.tax_rate / 12 + 0.0035 * a.current_value / 12 +
            a.hoa }) := by
  unfold Mortgage.cost
  rw [hlit]
  simp only [Bool.false_eq_true, if_false, bind, Except.bind, getKey]
  rw [if_neg hav]

/-- Evaluation of `getMortgage` once the two loaders succeed. -/
theorem getMortgage_eval (fin : FinDict) (r : RestDict) (f : FinLoaded) (r' : RestLoaded)
    (hv : PyNum) (hf : loadFinancing fin = .ok f) (hr : loadRestrictions r = .ok r')
    (hcc0 : ¬ (f.closing_cost - 1 = 0)) :
    getMortgage fin hv r =
      if derivedDown f r' hv.toRat < 0 then .ok (mortgageInit (.pint 0) {} {}).1
      else .ok (builtMortgage f r' hv) := by
  unfold getMortgage derivedDown builtMortgage
  rw [hf, hr]
  simp only [bind, Except.bind]
  rw [if_neg hcc0]
  split <;> rfl

/-- A home value with positive numeric value is not the int literal 0. -/
theorem isLit_zero_of_pos (hv : PyNum) (h : 0 < hv.toRat) : hv.isLit 0 = false := by
  rcases hv with z | q
  · simp only [PyNum.toRat] at h
    simp only [PyNum.isLit, decide_eq_false_iff_not]
    intro hz
    rw [hz] at h
    simp at h
  · rfl

/-- A successful `loadRestrictions` enforces the savings floor. -/
theorem loadRestrictions_savings (r : RestDict) (r' : RestLoaded)
    (h : loadRestrictions r = .ok r') : 10000 ≤ r'.savings := by
  unfold loadRestrictions at h
  rcases hs : r.savings with _ | s <;> rw [hs] at h
  · exact absurd h (by simp)
  · split at h
    · exact absurd h (by simp)
    · split at h
      · exact absurd h (by simp)
      · split at h
        · exact absurd h (by simp)
        · injection h with h
          subst h
          exact not_lt.mp (by assumption)

/-- Re-loading an already-loaded restrictions dict is the identity (the
search recursion passes the loaded dict back through the loader). -/
theorem loadRestrictions_restToDict (r : RestDict) (r' : RestLoaded)
    (h : loadRestrictions r = .ok r') : loadRestrictions (restToDict r') = .ok r' := by
  have hs := loadRestrictions_savings r r' h
  unfold loadRestrictions restToDict
  dsimp only [Option.isNone, Option.getD]
  rw [if_neg (not_lt.mpr hs)]
  rfl

/-- Claim C6: for every computed cost breakdown, `mortgage_size =
current_value - down_payment`, `percent_down = down_payment /
current_value`, `closing_cost = initial_cost - down_payment`, and
`monthly_payment` is exactly the sum of `mortgage_payment`,
`pmi_payment`, `tax_payment`, `insurance_payment` and `hoa`. -/
theorem cost_breakdown_invariants (m : Mortgage) (c : CostBreakdown)
    (h : m.cost = .ok (.full c)) :
    c.mortgage_size = m.asset.current_value - c.down_payment_cost ∧
    c.percent_down = c.down_payment_cost / m.asset.current_value ∧
    c.closing_cost = c.initial_cost - c.down_payment_cost ∧
    c.monthly_payment = c.mortgage_payment + c.pmi_payment + c.tax_payment +
      c.insurance_payment + c.hoa := by
  unfold Mortgage.cost at h
  split at h
  · exact absurd h (by simp)
  · simp only [bind, Except.bind, getKey] at h
    repeat' split at h
    all_goals simp only [Except.ok.injEq, CostRes.full.injEq, reduceCtorEq] at h
    subst h
    exact ⟨rfl, rfl, rfl, rfl⟩

/-- Witness for C6 at a concrete mortgage (home value 100000, zero
interest, 20000 down). -/
theorem cost_breakdown_invariants_witness :
    ({ initial_cost := 24000, closing_cost := 4000, down_payment_cost := 20000
       percent_down := 1/5, mortgage_size := 80000, mortgage_payment := 2000/9
       pmi_payment := 0, tax_payment := 250/3, insurance_payment := 175/6
       hoa := 0, monthly_payment := 6025/18 } : CostBreakdown).mortgage_size =
      (100000 : ℚ) - 20000 ∧
    ((1 : ℚ)/5 = 20000 / 100000) ∧ ((4000 : ℚ) = 24000 - 20000) ∧
    ((6025 : ℚ)/18 = 2000/9 + 0 + 250/3 + 175/6 + 0) := by
  have h := cost_breakdown_invariants
    ⟨.pint 100000, ⟨some 0, some 360, some (1/20), some 20000⟩, ⟨100000, 1/100, 0⟩⟩
    { initial_cost := 24000, closing_cost := 4000, down_payment_cost := 20000
      percent_down := 1/5, mortgage_size := 80000, mortgage_payment := 2000/9
      pmi_payment := 0, tax_payment := 250/3, insurance_payment := 175/6
      hoa := 0, monthly_payment := 6025/18 }
    (by with_unfolding_all rfl)
  exact h

/-- Claim C7 (amended): for nonnegative `mortgage_size` the PMI schedule
is non-increasing in `percent_down`; PMI is exactly 0 from 20% down; the
tier thresholds 0.2, 0.15, 0.1, 0.05 are inclusive (so at exactly 10%
down the annual PMI is `mortgage_size * 0.0059`).  The nonnegativity
hypothesis is forced: for negative sizes the tier products reverse
order. -/
theorem pmi_tier_spec :
    (∀ ms p1 p2 : ℚ, 0 ≤ ms → p1 ≤ p2 → Mortgage.pmi ms p2 ≤ Mortgage.pmi ms p1) ∧
    (∀ ms p : ℚ, 0.2 ≤ p → Mortgage.pmi ms p = 0) ∧
    (∀ ms : ℚ, Mortgage.pmi ms 0.2 = 0 ∧ Mortgage.pmi ms 0.15 = ms * 0.0044 ∧
      Mortgage.pmi ms 0.1 = ms * 0.0059 ∧ Mortgage.pmi ms 0.05 = ms * 0.0076) := by
  refine ⟨?_, ?_, ?_⟩
  · intro ms p1 p2 hms hp
    unfold Mortgage.pmi
    split_ifs <;> nlinarith
  · intro ms p hp
    unfold Mortgage.pmi
    rw [if_pos (by exact_mod_cast hp)]
  · intro ms
    refine ⟨?_, ?_, ?_, ?_⟩ <;> norm_num [Mortgage.pmi]

/-- Witness for C7 at concrete tier values. -/
theorem pmi_tier_spec_witness :
    Mortgage.pmi 200000 0.12 ≤ Mortgage.pmi 200000 0.07 ∧
    Mortgage.pmi 200000 0.3 = 0 ∧
    Mortgage.pmi 200000 0.1 = 200000 * 0.0059 := by
  exact ⟨pmi_tier_spec.1 200000 0.07 0.12 (by norm_num) (by norm_num),
    pmi_tier_spec.2.1 200000 0.3 (by norm_num),
    (pmi_tier_spec.2.2 200000).2.2.1⟩

/-- Counterexample to C7 as stated: with a negative `mortgage_size`
(which `pmi` accepts) the schedule is not non-increasing. -/
theorem pmi_not_monotone_on_negative :
    (0.01 : ℚ) ≤ 0.15 ∧ ¬ (Mortgage.pmi (-1) 0.15 ≤ Mortgage.pmi (-1) 0.01) := by
  constructor
  · norm_num
  · norm_num [Mortgage.pmi]

/-- Claim C5 (amended): `cost()` returns the empty sentinel exactly when
`home_value` is the Python int literal 0 (the guard is the identity
check `home_value is 0`), and such a mortgage is invalid.  A float `0.0`
home value bypasses the sentinel (see the counterexample). -/
theorem cost_empty_sentinel (m : Mortgage) :
    (m.cost = .ok .empty ↔ m.home_value.isLit 0 = true) ∧
    (m.home_value.isLit 0 = true → m.isValid = false) := by
  constructor
  · constructor
    · intro h
      by_contra hl
      rw [Bool.not_eq_true] at hl
      unfold Mortgage.cost at h
      rw [hl] at h
      simp only [Bool.false_eq_true, if_false, bind, Except.bind, getKey] at h
      repeat' split at h
      all_goals simp_all
    · intro h
      unfold Mortgage.cost
      rw [h]
      simp
  · intro h
    rcases hv : m.home_value with z | q
    · rw [hv] at h
      simp only [PyNum.isLit, decide_eq_true_eq] at h
      unfold Mortgage.isValid
      rw [hv, h]
      simp [PyNum.toRat]
    · rw [hv] at h
      simp [PyNum.isLit] at h

/-- Witness for C5: the sentinel mortgage `Mortgage(0, {}, {})` has an
empty cost dict and is invalid. -/
theorem cost_empty_sentinel_witness :
    (mortgageInit (.pint 0) {} {}).1.cost = .ok .empty ∧
    (mortgageInit (.pint 0) {} {}).1.isValid = false := by
  exact ⟨(cost_empty_sentinel _).1.mpr (by with_unfolding_all rfl),
    (cost_empty_sentinel _).2 (by with_unfolding_all rfl)⟩

set_option maxRecDepth 10000 in
/-- Counterexample to C5 as stated: a mortgage whose home value is the
float `0.0` (numerically zero) does not get the empty sentinel — `cost()`
raises `KeyError` on the empty financing dict instead. -/
theorem cost_float_zero_raises :
    ((mortgageInit (.pfloat 0) {} {}).1.home_value.toRat = 0) ∧
    ((mortgageInit (.pfloat 0) {} {}).1.cost = .error .keyError) ∧
    ((mortgageInit (.pfloat 0) {} {}).1.isValid = false) := by
  refine ⟨by with_unfolding_all rfl, by with_unfolding_all rfl, by with_unfolding_all rfl⟩

/-- Claim C10: the constructor fills missing keys of the caller-supplied
asset dict in place, and constructions relying on the shared mutable
default dict observe values written by earlier such constructions: after
a first default construction with home value 100000, a second default
construction with home value 50000 sees `current_value = 100000`. -/
theorem mortgage_init_shared_defaults :
    (({} : AssetDict).current_value = none) ∧
    ((mortgageInit (.pint 100000) {} {}).2.current_value = some 100000) ∧
    ((mortgageInit (.pint 50000) {} (mortgageInit (.pint 100000) {} {}).2).1.asset.current_value
      = 100000) ∧
    ((mortgageInit (.pint 50000) {} (mortgageInit (.pint 100000) {} {}).2).2
      = (mortgageInit (.pint 100000) {} {}).2) := by
  refine ⟨rfl, by with_unfolding_all rfl, by with_unfolding_all rfl, by with_unfolding_all rfl⟩

/-- Claim C1 (amended): with loaded financing and validated restrictions
and closing-cost rate `c ≠ 1`, `getMortgage` derives `down_payment =
h - (savings - h)/(c - 1)`; a negative derived down payment yields the
invalid sentinel `Mortgage(0, {}, {})` without pricing, and for a
*positive* home value a nonnegative derived down payment yields a valid
mortgage whose `cost().initial_cost` equals `savings` exactly.  The
positivity hypothesis is forced: at `h = 0` the derived down payment is
nonnegative yet the returned mortgage is invalid (see the
counterexample). -/
theorem getMortgage_initial_cost (fin : FinDict) (r : RestDict) (f : FinLoaded)
    (r' : RestLoaded) (hv : PyNum) (hf : loadFinancing fin = .ok f)
    (hr : loadRestrictions r = .ok r') (hcc : f.closing_cost ≠ 1) :
    (derivedDown f r' hv.toRat < 0 →
      getMortgage fin hv r = .ok (mortgageInit (.pint 0) {} {}).1 ∧
      ((mortgageInit (.pint 0) {} {}).1.isValid = false)) ∧
    (0 ≤ derivedDown f r' hv.toRat → 0 < hv.toRat →
      ∃ m c, getMortgage fin hv r = .ok m ∧ m.isValid = true ∧
        m.cost = .ok (.full c) ∧ c.initial_cost = r'.savings) := by
  have hcc0 : ¬ (f.closing_cost - 1 = 0) := sub_ne_zero_of_ne hcc
  rw [getMortgage_eval fin r f r' hv hf hr hcc0]
  constructor
  · intro hd
    rw [if_pos hd]
    exact ⟨rfl, rfl⟩
  · intro hd hpos
    rw [if_neg (not_lt.mpr hd)]
    have hlit : hv.isLit 0 = false := isLit_zero_of_pos hv hpos
    have hav : (builtMortgage f r' hv).asset.current_value ≠ 0 := ne_of_gt hpos
    refine ⟨builtMortgage f r' hv, _, rfl, ?_, cost_eval hv _ _ _ _ _ hlit hav, ?_⟩
    · unfold Mortgage.isValid builtMortgage
      exact decide_eq_true hpos
    · show (hv.toRat - derivedDown f r' hv.toRat) * f.closing_cost +
        derivedDown f r' hv.toRat = r'.savings
      unfold derivedDown
      field_simp
      ring

/-- Witness for C1 at home value 300000, savings 50000, default
financing rates. -/
theorem getMortgage_initial_cost_witness :
    ∃ m c, getMortgage ⟨some (6/100), none, none, none⟩ (.pint 300000)
        ⟨some 50000, some 3000, none, none, none⟩ = .ok m ∧
      m.isValid = true ∧ m.cost = .ok (.full c) ∧ c.initial_cost = 50000 := by
  have h := (getMortgage_initial_cost ⟨some (6/100), none, none, none⟩
    ⟨some 50000, some 3000, none, none, none⟩ ⟨6/100, 360, 1/20, 0⟩
    ⟨50000, 3000, 999999999999999999, 0, 1/80⟩ (.pint 300000)
    (by with_unfolding_all rfl) (by with_unfolding_all rfl) (by norm_num)).2
    (by unfold derivedDown; norm_num [PyNum.toRat]) (by norm_num [PyNum.toRat])
  simpa using h

set_option maxRecDepth 10000 in
/-- Counterexample to C1 as stated: at home value 0 (savings 10000) the
derived down payment `200000/19` is nonnegative, yet `getMortgage`
returns an *invalid* mortgage (home value 0), not a valid one. -/
theorem getMortgage_zero_home_invalid :
    (0 : ℚ) ≤ 200000 / 19 ∧
    getMortgage ⟨some (6/100), none, none, none⟩ (.pint 0)
        ⟨some 10000, none, some 500000, none, none⟩ =
      .ok ⟨.pint 0, ⟨some (6/100), some 360, some (1/20), some (200000/19)⟩,
        ⟨0, 1/80, 0⟩⟩ ∧
    (Mortgage.isValid ⟨.pint 0, ⟨some (6/100), some 360, some (1/20), some (200000/19)⟩,
      ⟨0, 1/80, 0⟩⟩) = false := by
  refine ⟨by norm_num, by with_unfolding_all rfl, by with_unfolding_all rfl⟩

/-- Claim C4 (code bug): `cost()` always computes the mortgage payment
with the hard-coded `12*30 = 360` periods; the loaded
`mortgage_term` (here 12, explicitly supplied) is never consulted.  With
zero interest the 360-period payment is `80000/360 = 2000/9`, not the
term-respecting `80000/12`. -/
theorem cost_term_months_hardcoded :
    (loadFinancing ⟨some 0, some 12, some (1/20), some 20000⟩ = .ok ⟨0, 12, 1/20, 20000⟩) ∧
    (∃ c, (mortgageInit (.pint 100000)
        ⟨some 0, some 12, some (1/20), some 20000⟩ {}).1.cost = .ok (.full c) ∧
      c.mortgage_payment = |pmt (0/12) (12*30) 80000| ∧ |pmt (0/12) (12*30) 80000| = 2000/9 ∧
      c.mortgage_payment ≠ |pmt (0/12) 12 80000|) := by
  refine ⟨by with_unfolding_all rfl, ?_⟩
  have h := cost_eval (.pint 100000) 0 12 (1/20) 20000 ⟨100000, 1/100, 0⟩ rfl (by norm_num)
  have hm : (mortgageInit (.pint 100000) ⟨some 0, some 12, some (1/20), some 20000⟩ {}).1 =
      ⟨.pint 100000, ⟨some 0, some 12, some (1/20), some 20000⟩, ⟨100000, 1/100, 0⟩⟩ := by
    with_unfolding_all rfl
  rw [hm, h]
  have hv360 : |pmt (0/12) (12*30) ((100000:ℚ) - 20000)| = 2000/9 := by
    with_unfolding_all rfl
  have hv12 : |pmt (0/12) 12 (80000:ℚ)| = 20000/3 := by
    with_unfolding_all rfl
  have h80 : ((100000:ℚ) - 20000) = 80000 := by norm_num
  refine ⟨_, rfl, by norm_num, by rw [h80] at hv360; exact hv360, ?_⟩
  rw [hv360, hv12]
  norm_num

/-- `innerBody` propagates a mortgage-derivation error. -/
theorem innerBody_eval_err (fin : FinDict) (r : RestLoaded) (j : ℚ) (s : BestRec × Bool)
    (e : PyErr) (hg : getMortgage fin (.pfloat j) (restToDict r) = .error e) :
    innerBody fin r j s = .error e := by
  unfold innerBody
  rw [hg]
  rfl

/-- `innerBody` skips an invalid candidate mortgage. -/
theorem innerBody_eval_invalid (fin : FinDict) (r : RestLoaded) (j : ℚ) (s : BestRec × Bool)
    (m : Mortgage) (hg : getMortgage fin (.pfloat j) (restToDict r) = .ok m)
    (hv : m.isValid = false) :
    innerBody fin r j s = .ok s := by
  unfold innerBody
  rw [hg]
  show (if !m.isValid then _ else _ : Except PyErr (BestRec × Bool)) = _
  rw [hv]
  rfl

/-- `innerBody` propagates a pricing error. -/
theorem innerBody_eval_costerr (fin : FinDict) (r : RestLoaded) (j : ℚ) (s : BestRec × Bool)
    (m : Mortgage) (e : PyErr) (hg : getMortgage fin (.pfloat j) (restToDict r) = .ok m)
    (hv : m.isValid = true) (hc : m.cost = .error e) :
    innerBody fin r j s = .error e := by
  unfold innerBody
  rw [hg]
  show (if !m.isValid then _ else _ : Except PyErr (BestRec × Bool)) = _
  rw [hv]
  show (m.cost >>= _) = _
  rw [hc]
  rfl

/-- `innerBody` raises `KeyError` on an unpriceable (empty-cost) valid
mortgage (reading `monthly_payment` from the empty dict). -/
theorem innerBody_eval_empty (fin : FinDict) (r : RestLoaded) (j : ℚ) (s : BestRec × Bool)
    (m : Mortgage) (hg : getMortgage fin (.pfloat j) (restToDict r) = .ok m)
    (hv : m.isValid = true) (hc : m.cost = .ok .empty) :
    innerBody fin r j s = .error .keyError := by
  unfold innerBody
  rw [hg]
  show (if !m.isValid then _ else _ : Except PyErr (BestRec × Bool)) = _
  rw [hv]
  show (m.cost >>= _) = _
  rw [hc]
  rfl

/-- Flattened evaluation of `innerBody` on a valid, priced candidate. -/
theorem innerBody_eval_full (fin : FinDict) (r : RestLoaded) (j : ℚ) (s : BestRec × Bool)
    (m : Mortgage) (c : CostBreakdown) (hg : getMortgage fin (.pfloat j) (restToDict r) = .ok m)
    (hv : m.isValid = true) (hc : m.cost = .ok (.full c)) :
    innerBody fin r j s =
      if c.mortgage_size > r.max_mortgage then .ok s
      else if (c.monthly_payment ≤ r.max_monthly_payment ∧ c.initial_cost ≤ r.savings) ∨
          (j = s.1.value.toRat ∧ c.monthly_payment < s.1.cost_monthly) then
        if s.1.value.toRat < j then .ok (⟨.pfloat j, m, c.monthly_payment⟩, true)
        else .ok s
      else .ok s := by
  unfold innerBody
  rw [hg]
  show (if !m.isValid then _ else _ : Except PyErr (BestRec × Bool)) = _
  rw [hv]
  show (m.cost >>= _) = _
  rw [hc]
  rfl

/-- The inner sweep's body is idempotent: rerunning it on its own output
changes nothing. -/
theorem innerBody_idem (fin : FinDict) (r : RestLoaded) (j : ℚ) (s s1 : BestRec × Bool)
    (h : innerBody fin r j s = .ok s1) : innerBody fin r j s1 = .ok s1 := by
  cases hg : getMortgage fin (.pfloat j) (restToDict r) with
  | error e => rw [innerBody_eval_err fin r j s e hg] at h; exact absurd h (by simp)
  | ok m =>
    by_cases hv : m.isValid = true
    case neg =>
      rw [Bool.not_eq_true] at hv
      rw [innerBody_eval_invalid fin r j s m hg hv] at h
      injection h with h
      subst h
      exact innerBody_eval_invalid fin r j s m hg hv
    case pos =>
      cases hc : m.cost with
      | error e =>
        rw [innerBody_eval_costerr fin r j s m e hg hv hc] at h
        exact absurd h (by simp)
      | ok cres =>
        cases cres with
        | empty =>
          rw [innerBody_eval_empty fin r j s m hg hv hc] at h
          exact absurd h (by simp)
        | full c =>
          rw [innerBody_eval_full fin r j s m c hg hv hc] at h
          rw [innerBody_eval_full fin r j s1 m c hg hv hc]
          by_cases hbig : c.mortgage_size > r.max_mortgage
          · rw [if_pos hbig] at h
            injection h with h
            subst h
            rw [if_pos hbig]
          · rw [if_neg hbig] at h
            by_cases hacc : (c.monthly_payment ≤ r.max_monthly_payment ∧
                c.initial_cost ≤ r.savings) ∨
                (j = s.1.value.toRat ∧ c.monthly_payment < s.1.cost_monthly)
            · rw [if_pos hacc] at h
              by_cases hlt : s.1.value.toRat < j
              · rw [if_pos hlt] at h
                injection h with h
                subst h
                have hfst : (c.monthly_payment ≤ r.max_monthly_payment ∧
                    c.initial_cost ≤ r.savings) := by
                  rcases hacc with hacc | hacc
                  · exact hacc
                  · exact absurd hacc.1 (ne_of_gt hlt)
                rw [if_neg hbig, if_pos (Or.inl hfst),
                  if_neg (show ¬ ((⟨.pfloat j, m, c.monthly_payment⟩, true) :
                    BestRec × Bool).1.value.toRat < j by simp [PyNum.toRat])]
              · rw [if_neg hlt] at h
                injection h with h
                subst h
                rw [if_neg hbig, if_pos hacc, if_neg hlt]
            · rw [if_neg hacc] at h
              injection h with h
              subst h
              rw [if_neg hbig, if_neg hacc]

/-- Iterating the idempotent inner body `k+1` times equals iterating it
once. -/
theorem innerN_succ (fin : FinDict) (r : RestLoaded) (j : ℚ) (k : ℕ) (s : BestRec × Bool) :
    innerN fin r j (k + 1) s = innerN fin r j 1 s := by
  induction k generalizing s with
  | zero => rfl
  | succ k ih =>
    unfold innerN
    cases hb : innerBody fin r j s with
    | error e => rfl
    | ok s1 =>
      dsimp only
      rw [ih s1]
      have hidem := innerBody_idem fin r j s s1 hb
      unfold innerN
      rw [hidem]
      rfl

/-- The source's inner sweep count. -/
theorem innerCount_eq : innerCount = 960 := by with_unfolding_all rfl

/-- The outer loop is unchanged if the (idempotent) inner sweep is run
once instead of `ic ≥ 1` times. -/
theorem outerLoop_collapse (ic : ℕ) (hic : 1 ≤ ic) (fin : FinDict) (r : RestLoaded) :
    ∀ (js : List ℚ) (ub : ℚ) (best : BestRec),
      outerLoop ic fin r js ub best = outerLoop 1 fin r js ub best := by
  intro js
  induction js with
  | nil => intro ub best; rfl
  | cons j rest ih =>
    intro ub best
    unfold outerLoop
    obtain ⟨k, rfl⟩ : ∃ k, ic = k + 1 := ⟨ic - 1, (Nat.succ_pred_eq_of_pos hic).symm⟩
    rw [innerN_succ]
    cases hb : innerN fin r j 1 (best, false) with
    | error e => rfl
    | ok p =>
      rcases p with ⟨best1, found⟩
      cases found with
      | false => rfl
      | true =>
        dsimp only
        exact ih ub best1

/-- The multi-resolution search is unchanged if the inner sweep is
collapsed to a single evaluation per outer candidate. -/
theorem optimizeFuelGen_collapse (n : ℕ) :
    ∀ (fin : FinDict) (rd : RestDict) (lb ub st : PyNum),
      optimizeFuelGen innerCount n fin rd lb ub st =
        optimizeFuelGen 1 n fin rd lb ub st := by
  induction n with
  | zero => intro fin rd lb ub st; rfl
  | succ n ih =>
    intro fin rd lb ub st
    unfold optimizeFuelGen
    cases hr : loadRestrictions rd with
    | error e => rfl
    | ok r =>
      dsimp only
      rw [outerLoop_collapse innerCount (by rw [innerCount_eq]; norm_num) fin r]
      cases ho : outerLoop 1 fin r
          (arangeQ (if lb.isLit 0 then (r.savings, (9999999:ℚ), PyNum.pint 100000)
            else (lb.toRat, ub.toRat, st)).1
            (if lb.isLit 0 then (r.savings, (9999999:ℚ), PyNum.pint 100000)
            else (lb.toRat, ub.toRat, st)).2.1
            (if ((if lb.isLit 0 then (r.savings, (9999999:ℚ), PyNum.pint 100000)
              else (lb.toRat, ub.toRat, st)).2.2).toRat < 50 then PyNum.pint 1
              else (if lb.isLit 0 then (r.savings, (9999999:ℚ), PyNum.pint 100000)
              else (lb.toRat, ub.toRat, st)).2.2).toRat)
          (if lb.isLit 0 then (r.savings, (9999999:ℚ), PyNum.pint 100000)
            else (lb.toRat, ub.toRat, st)).2.1 bestInit with
      | error e => rfl
      | ok p =>
        rcases p with ⟨best, ub2⟩
        dsimp only
        repeat' split
        all_goals first
          | rfl
          | exact ih fin _ best.value (.pfloat ub2) _


/-- Claim C9: the derived mortgage, its cost, and the acceptance
decision inside the search depend only on the outer candidate `j` and
the restrictions, never on the inner sweep index, and iterations of the
inner loop after the first never change the best-so-far record or
`found_a_match`; hence `optimize` computes the same result with the
inner percent-down sweep (0.05 to 1.01 by 0.001, 960 iterations)
collapsed to a single evaluation per outer candidate. -/
theorem optimize_inner_sweep_collapse (n : ℕ) (fin : FinDict) (rd : RestDict)
    (lb ub st : PyNum) :
    optimizeFuel n fin rd lb ub st = optimizeFuelGen 1 n fin rd lb ub st :=
  optimizeFuelGen_collapse n fin rd lb ub st

/-- The initial best record's sentinel mortgage is invalid. -/
theorem bestInit_invalid : bestInit.mortgage.isValid = false := rfl

/-- The inner body can only ever update the best record to a candidate
that is valid, priced, within all three caps, and strictly above the
current best value. -/
theorem innerBody_update (fin : FinDict) (r : RestLoaded) (j : ℚ) (s s1 : BestRec × Bool)
    (h : innerBody fin r j s = .ok s1) (hne : s1.1 ≠ s.1) :
    s.1.value.toRat < j ∧ s1.1.value = .pfloat j ∧ s1.1.mortgage.isValid = true ∧
    ∃ c, s1.1.mortgage.cost = .ok (.full c) ∧
      c.monthly_payment ≤ r.max_monthly_payment ∧ c.initial_cost ≤ r.savings ∧
      c.mortgage_size ≤ r.max_mortgage := by
  cases hg : getMortgage fin (.pfloat j) (restToDict r) with
  | error e => rw [innerBody_eval_err fin r j s e hg] at h; exact absurd h (by simp)
  | ok m =>
    by_cases hv : m.isValid = true
    case neg =>
      rw [Bool.not_eq_true] at hv
      rw [innerBody_eval_invalid fin r j s m hg hv] at h
      injection h with h
      exact absurd (congrArg Prod.fst h) (Ne.symm hne)
    case pos =>
      cases hc : m.cost with
      | error e =>
        rw [innerBody_eval_costerr fin r j s m e hg hv hc] at h
        exact absurd h (by simp)
      | ok cres =>
        cases cres with
        | empty =>
          rw [innerBody_eval_empty fin r j s m hg hv hc] at h
          exact absurd h (by simp)
        | full c =>
          rw [innerBody_eval_full fin r j s m c hg hv hc] at h
          by_cases hbig : c.mortgage_size > r.max_mortgage
          · rw [if_pos hbig] at h
            injection h with h
            exact absurd (congrArg Prod.fst h) (Ne.symm hne)
          · rw [if_neg hbig] at h
            by_cases hacc : (c.monthly_payment ≤ r.max_monthly_payment ∧
                c.initial_cost ≤ r.savings) ∨
                (j = s.1.value.toRat ∧ c.monthly_payment < s.1.cost_monthly)
            · rw [if_pos hacc] at h
              by_cases hlt : s.1.value.toRat < j
              · rw [if_pos hlt] at h
                injection h with h
                subst h
                have hfst : (c.monthly_payment ≤ r.max_monthly_payment ∧
                    c.initial_cost ≤ r.savings) := by
                  rcases hacc with hacc | hacc
                  · exact hacc
                  · exact absurd hacc.1 (ne_of_gt hlt)
                exact ⟨hlt, rfl, hv, c, hc, hfst.1, hfst.2, not_lt.mp hbig⟩
              · rw [if_neg hlt] at h
                injection h with h
                exact absurd (congrArg Prod.fst h) (Ne.symm hne)
            · rw [if_neg hacc] at h
              injection h with h
              exact absurd (congrArg Prod.fst h) (Ne.symm hne)

/-- The inner body preserves the search-winner soundness invariant. -/
theorem innerBody_constrained (fin : FinDict) (r : RestLoaded) (j : ℚ)
    (s s1 : BestRec × Bool) (h : innerBody fin r j s = .ok s1)
    (hc : constrainedBest r s.1) : constrainedBest r s1.1 := by
  by_cases hne : s1.1 = s.1
  · rw [hne]; exact hc
  · obtain ⟨_, _, hval, c, hcost, h1, h2, h3⟩ := innerBody_update fin r j s s1 h hne
    intro _
    exact ⟨c, hcost, h1, h2, h3⟩

/-- The iterated inner sweep preserves the soundness invariant. -/
theorem innerN_constrained (fin : FinDict) (r : RestLoaded) (j : ℚ) (k : ℕ) :
    ∀ (s s1 : BestRec × Bool), innerN fin r j k s = .ok s1 →
      constrainedBest r s.1 → constrainedBest r s1.1 := by
  induction k with
  | zero =>
    intro s s1 h hc
    injection h with h
    rw [← h]
    exact hc
  | succ k ih =>
    intro s s1 h hc
    unfold innerN at h
    cases hb : innerBody fin r j s with
    | error e => rw [hb] at h; exact absurd h (by simp)
    | ok s2 =>
      rw [hb] at h
      exact ih s2 s1 h (innerBody_constrained fin r j s s2 hb hc)

/-- The outer loop preserves the soundness invariant. -/
theorem outerLoop_constrained (ic : ℕ) (fin : FinDict) (r : RestLoaded) :
    ∀ (js : List ℚ) (ub ub1 : ℚ) (best best1 : BestRec),
      outerLoop ic fin r js ub best = .ok (best1, ub1) →
      constrainedBest r best → constrainedBest r best1 := by
  intro js
  induction js with
  | nil =>
    intro ub ub1 best best1 h hc
    injection h with h
    cases h
    exact hc
  | cons j rest ih =>
    intro ub ub1 best best1 h hc
    unfold outerLoop at h
    cases hb : innerN fin r j ic (best, false) with
    | error e => rw [hb] at h; exact absurd h (by simp)
    | ok p =>
      rw [hb] at h
      rcases p with ⟨b1, found⟩
      have hc1 : constrainedBest r b1 :=
        innerN_constrained fin r j ic (best, false) (b1, found) hb hc
      dsimp only at h
      cases found with
      | true => exact ih ub ub1 b1 best1 h hc1
      | false =>
        injection h with h
        cases h
        exact hc1

/-- Any mortgage returned by the fuel-bounded search with a valid result
was accepted under the loaded restrictions' constraints. -/
theorem optimizeFuelGen_constrained (ic : ℕ) (n : ℕ) :
    ∀ (fin : FinDict) (rd : RestDict) (lb ub st : PyNum) (m : Mortgage),
      optimizeFuelGen ic n fin rd lb ub st = some (.ok m) → m.isValid = true →
      ∃ r c, loadRestrictions rd = .ok r ∧ m.cost = .ok (.full c) ∧
        c.monthly_payment ≤ r.max_monthly_payment ∧ c.initial_cost ≤ r.savings ∧
        c.mortgage_size ≤ r.max_mortgage := by
  induction n with
  | zero => intro fin rd lb ub st m h _; exact absurd h (by simp [optimizeFuelGen])
  | succ n ih =>
    intro fin rd lb ub st m h hval
    unfold optimizeFuelGen at h
    cases hr : loadRestrictions rd with
    | error e => rw [hr] at h; exact absurd h (by simp)
    | ok r =>
      rw [hr] at h
      dsimp only at h
      generalize hT : (if lb.isLit 0 = true
        then (r.savings, (9999999:ℚ), PyNum.pint 100000)
        else (lb.toRat, ub.toRat, st)) = T at h
      obtain ⟨lb2, ub2, st2⟩ := T
      dsimp only at h
      generalize hS : (if st2.toRat < 50 then PyNum.pint 1 else st2) = S at h
      cases ho : outerLoop ic fin r (arangeQ lb2 ub2 S.toRat) ub2 bestInit with
      | error e => rw [ho] at h; exact absurd h (by simp)
      | ok p =>
        rw [ho] at h
        rcases p with ⟨best, ubx⟩
        dsimp only at h
        split at h
        · simp only [Option.some.injEq, Except.ok.injEq] at h
          have hm : m = best.mortgage := h.symm
          subst hm
          have hcb : constrainedBest r best :=
            outerLoop_constrained ic fin r _ _ _ bestInit best ho
              (by intro hbad; rw [bestInit_invalid] at hbad; exact absurd hbad (by simp))
          obtain ⟨c, hc, h1, h2, h3⟩ := hcb hval
          exact ⟨r, c, rfl, hc, h1, h2, h3⟩
        · obtain ⟨r2, c, hr2, hc, h1, h2, h3⟩ :=
            ih fin (restToDict r) best.value (.pfloat ubx) (.pfloat (S.toRat / 2)) m h hval
          have hrr : r2 = r := by
            have hid := loadRestrictions_restToDict rd r hr
            rw [hid] at hr2
            injection hr2 with hr3
            exact hr3.symm
          subst hrr
          exact ⟨r2, c, rfl, hc, h1, h2, h3⟩

/-- Claim C2: when `optimize` returns normally with a valid mortgage,
its cost breakdown respects all three restrictions (`monthly_payment ≤
max_monthly_payment`, `initial_cost ≤ savings`, `mortgage_size ≤
max_mortgage` of the loaded restrictions); and the best-so-far record is
only ever updated with a candidate whose value `j` is strictly greater
than the current best's value — an update that moreover always installs
a valid, in-bounds mortgage, so an invalid mortgage is never a search
winner. -/
theorem optimize_result_constraints :
    (∀ (n : ℕ) (fin : FinDict) (rd : RestDict) (lb ub st : PyNum) (m : Mortgage),
      optimizeFuel n fin rd lb ub st = some (.ok m) → m.isValid = true →
      ∃ r c, loadRestrictions rd = .ok r ∧ m.cost = .ok (.full c) ∧
        c.monthly_payment ≤ r.max_monthly_payment ∧ c.initial_cost ≤ r.savings ∧
        c.mortgage_size ≤ r.max_mortgage) ∧
    (∀ (fin : FinDict) (r : RestLoaded) (j : ℚ) (s s1 : BestRec × Bool),
      innerBody fin r j s = .ok s1 → s1.1 ≠ s.1 →
      s.1.value.toRat < j ∧ s1.1.value = .pfloat j ∧ s1.1.mortgage.isValid = true) := by
  constructor
  · intro n fin rd lb ub st m h hval
    exact optimizeFuelGen_constrained innerCount n fin rd lb ub st m h hval
  · intro fin r j s s1 h hne
    obtain ⟨h1, h2, h3, _⟩ := innerBody_update fin r j s s1 h hne
    exact ⟨h1, h2, h3⟩

set_option maxRecDepth 100000 in
/-- Witness for C2: a one-level unit-step search run on savings 50000
returns a valid mortgage meeting all constraints, and the inner body's
only update installs the accepted candidate. -/
theorem optimize_result_constraints_witness :
    (∃ r c, loadRestrictions ⟨some 50000, some 1000000, none, none, none⟩ = .ok r ∧
      Mortgage.cost ⟨.pfloat 50000, ⟨some 0, some 360, some (1/20), some 50000⟩,
        ⟨50000, 1/80, 0⟩⟩ = .ok (.full c) ∧
      c.monthly_payment ≤ r.max_monthly_payment ∧ c.initial_cost ≤ r.savings ∧
      c.mortgage_size ≤ r.max_mortgage) ∧
    (bestInit.value.toRat < 50000 ∧
      ((⟨.pfloat 50000, ⟨.pfloat 50000, ⟨some 0, some 360, some (1/20), some 50000⟩,
          ⟨50000, 1/80, 0⟩⟩, 200/3⟩ : BestRec), true).1.value = .pfloat 50000 ∧
      Mortgage.isValid ⟨.pfloat 50000, ⟨some 0, some 360, some (1/20), some 50000⟩,
        ⟨50000, 1/80, 0⟩⟩ = true) := by
  constructor
  · exact optimize_result_constraints.1 1 ⟨some 0, none, none, none⟩
      ⟨some 50000, some 1000000, none, none, none⟩ (.pfloat 50000) (.pfloat 50001)
      (.pint 1) ⟨.pfloat 50000, ⟨some 0, some 360, some (1/20), some 50000⟩, ⟨50000, 1/80, 0⟩⟩
      (by with_unfolding_all rfl) (by with_unfolding_all rfl)
  · exact optimize_result_constraints.2 ⟨some 0, none, none, none⟩
      ⟨50000, 1000000, 999999999999999999, 0, 1/80⟩ 50000 (bestInit, false)
      (⟨.pfloat 50000, ⟨.pfloat 50000, ⟨some 0, some 360, some (1/20), some 50000⟩,
        ⟨50000, 1/80, 0⟩⟩, 200/3⟩, true)
      (by with_unfolding_all rfl)
      (by intro hx; exact absurd (congrArg BestRec.value hx) (by simp [bestInit]))

/-- `numpy.arange` is empty when the interval is. -/
theorem arangeQ_nil (start stop step : ℚ) (h : stop ≤ start) :
    arangeQ start stop step = [] := by
  unfold arangeQ arangeCount
  rw [if_neg (by intro hx; exact absurd hx.2 (not_lt.mpr h))]
  rfl

/-- Membership in `arangeQ` in index form. -/
theorem arangeQ_mem (start stop step j : ℚ)
    (h : j ∈ arangeQ start stop step) :
    ∃ k : ℕ, k < arangeCount start stop step ∧ j = start + (k : ℚ) * step := by
  unfold arangeQ at h
  simp only [List.mem_map, List.mem_range] at h
  obtain ⟨k, hk, hj⟩ := h
  exact ⟨k, hk, hj.symm⟩

/-- Every `arangeQ` value is at least the start (positive step). -/
theorem arangeQ_ge (start stop step j : ℚ) (hst : 0 < step)
    (h : j ∈ arangeQ start stop step) : start ≤ j := by
  obtain ⟨k, _, hj⟩ := arangeQ_mem start stop step j h
  rw [hj]
  have : (0:ℚ) ≤ (k : ℚ) * step := mul_nonneg (by positivity) (le_of_lt hst)
  linarith

/-- Every `arangeQ` value is strictly below the stop (positive step). -/
theorem arangeQ_lt_stop (start stop step j : ℚ) (hst : 0 < step)
    (h : j ∈ arangeQ start stop step) : j < stop := by
  obtain ⟨k, hk, hj⟩ := arangeQ_mem start stop step j h
  unfold arangeCount at hk
  by_cases hc : 0 < step ∧ start < stop
  · rw [if_pos hc] at hk
    have hk2 : (k : ℤ) < ⌈(stop - start) / step⌉ := by omega
    have hk3 : (k : ℚ) < (stop - start) / step := by exact_mod_cast Int.lt_ceil.mp hk2
    have hk4 : (k : ℚ) * step < stop - start := (lt_div_iff₀ hst).mp hk3
    rw [hj]
    linarith
  · rw [if_neg hc] at hk
    omega

/-- `arangeQ` values are strictly increasing (positive step). -/
theorem arangeQ_pairwise (start stop step : ℚ) (hst : 0 < step) :
    (arangeQ start stop step).Pairwise (· < ·) := by
  unfold arangeQ
  rw [List.pairwise_map]
  refine (List.pairwise_lt_range _).imp ?_
  intro a b hab
  have hq : (a : ℚ) < (b : ℚ) := by exact_mod_cast hab
  nlinarith

/-- A nonempty `arangeQ` starts at its start value. -/
theorem arangeQ_cons (start stop step : ℚ) (hst : 0 < step) (hlt : start < stop) :
    ∃ rest, arangeQ start stop step = start :: rest := by
  unfold arangeQ
  obtain ⟨m, hm⟩ : ∃ m, arangeCount start stop step = m + 1 := by
    unfold arangeCount
    rw [if_pos ⟨hst, hlt⟩]
    have hpos : (0:ℚ) < (stop - start) / step := div_pos (by linarith) hst
    have h1 : (0:ℤ) < ⌈(stop - start) / step⌉ := Int.ceil_pos.mpr hpos
    exact ⟨(⌈(stop - start) / step⌉).toNat - 1, by omega⟩
  rw [hm, List.range_succ_eq_map]
  refine ⟨((List.range m).map Nat.succ).map (fun k : ℕ => start + (k : ℚ) * step), ?_⟩
  rw [List.map_cons]
  congr 1
  norm_num

/-- With validated savings of at least 9999999, the search's reset
entry interval `[savings, 9999999)` is empty, the best record stays at
the int 0, and the recursion resets forever: the search never returns,
whatever the fuel. -/
theorem optimizeFuelGen_none_of_big_savings (ic : ℕ) (n : ℕ) :
    ∀ (fin : FinDict) (rd : RestDict) (r : RestLoaded) (ub st : PyNum),
      loadRestrictions rd = .ok r → 9999999 ≤ r.savings →
      optimizeFuelGen ic n fin rd (.pint 0) ub st = none := by
  induction n with
  | zero => intro fin rd r ub st _ _; rfl
  | succ n ih =>
    intro fin rd r ub st hr hs
    unfold optimizeFuelGen
    rw [hr]
    dsimp only
    rw [if_pos (show PyNum.isLit 0 (.pint 0) = true from rfl)]
    dsimp only
    rw [if_neg (show ¬ ((PyNum.pint 100000).toRat < 50) from by norm_num [PyNum.toRat])]
    rw [arangeQ_nil _ _ _ hs]
    unfold outerLoop
    dsimp only
    rw [if_neg (show ¬ (PyNum.isLit 1 (.pint 100000) = true) from by simp [PyNum.isLit])]
    exact ih fin (restToDict r) r (.pfloat 9999999)
      (.pfloat ((PyNum.pint 100000).toRat / 2))
      (loadRestrictions_restToDict rd r hr) hs

/-- Counterexample to C3 as stated: on the validated restrictions
`{savings: 10000000, max_mortgage: 100000}` the search never terminates
(every recursion level resets and recurses again), for any fuel. -/
theorem optimize_nonterminating :
    loadRestrictions ⟨some 10000000, none, some 100000, none, none⟩ =
      .ok ⟨10000000, 999999999999999999, 100000, 0, 1/80⟩ ∧
    ¬ ∃ n res, optimizeFuel n ⟨some (6/100), none, none, none⟩
        ⟨some 10000000, none, some 100000, none, none⟩
        (.pint 0) (.pint 0) (.pint 0) = some res := by
  refine ⟨by with_unfolding_all rfl, ?_⟩
  rintro ⟨n, res, h⟩
  unfold optimizeFuel at h
  rw [optimizeFuelGen_none_of_big_savings innerCount n _ _
    ⟨10000000, 999999999999999999, 100000, 0, 1/80⟩ (.pint 0) (.pint 0)
    (by with_unfolding_all rfl) (by norm_num)] at h
  exact absurd h (by simp)

/-- The initial best record's value is numerically 0. -/
theorem bestInit_value_toRat : bestInit.value.toRat = 0 := by
  simp [bestInit, PyNum.toRat]

/-- A single inner-sweep iteration. -/
theorem innerN_one (fin : FinDict) (r : RestLoaded) (j : ℚ) (s s1 : BestRec × Bool)
    (hb : innerBody fin r j s = .ok s1) : innerN fin r j 1 s = .ok s1 := by
  unfold innerN
  rw [hb]
  rfl

/-- An accepted candidate strictly above the current best updates the
best record (whatever the sweep length `k+1`). -/
theorem innerN_run_accept (fin : FinDict) (r : RestLoaded) (j : ℚ) (k : ℕ)
    (s : BestRec × Bool) (hacc : acceptsCandidate fin r j) (hlt : s.1.value.toRat < j) :
    ∃ m c, getMortgage fin (.pfloat j) (restToDict r) = .ok m ∧ m.cost = .ok (.full c) ∧
      innerN fin r j (k + 1) s = .ok (⟨.pfloat j, m, c.monthly_payment⟩, true) := by
  obtain ⟨m, c, hg, hv, hc, hbig, hle, hhe⟩ := hacc
  refine ⟨m, c, hg, hc, ?_⟩
  rw [innerN_succ]
  apply innerN_one
  rw [innerBody_eval_full fin r j s m c hg hv hc]
  rw [if_neg hbig, if_pos (Or.inl ⟨hle, hhe⟩), if_pos hlt]

/-- With the loaders succeeding, a nonzero closing-cost denominator and
a positive candidate, the inner body never errors: it either leaves the
state unchanged or installs an accepted candidate. -/
theorem innerBody_run_total (fin : FinDict) (r : RestLoaded) (f : FinLoaded)
    (hf : loadFinancing fin = .ok f) (hcc : ¬ (f.closing_cost - 1 = 0))
    (hr : loadRestrictions (restToDict r) = .ok r) (j : ℚ) (hj : 0 < j)
    (s : BestRec × Bool) :
    innerBody fin r j s = .ok s ∨
    (acceptsCandidate fin r j ∧ s.1.value.toRat < j ∧
      ∃ (m : Mortgage) (c : CostBreakdown),
        innerBody fin r j s = .ok (⟨.pfloat j, m, c.monthly_payment⟩, true)) := by
  have hg := getMortgage_eval fin (restToDict r) f r (.pfloat j) hf hr hcc
  by_cases hd : derivedDown f r (PyNum.pfloat j).toRat < 0
  · rw [if_pos hd] at hg
    left
    exact innerBody_eval_invalid fin r j s _ hg rfl
  · rw [if_neg hd] at hg
    have hv : (builtMortgage f r (.pfloat j)).isValid = true := by
      unfold Mortgage.isValid builtMortgage
      exact decide_eq_true (show (0:ℚ) < (PyNum.pfloat j).toRat from hj)
    obtain ⟨c, hcm⟩ : ∃ c, (builtMortgage f r (.pfloat j)).cost = .ok (.full c) :=
      ⟨_, cost_eval (.pfloat j) f.interest_rate f.mortgage_term f.closing_cost
        (derivedDown f r (PyNum.pfloat j).toRat)
        ⟨(PyNum.pfloat j).toRat, r.tax_rate, r.hoa⟩ rfl (ne_of_gt hj)⟩
    rw [innerBody_eval_full fin r j s _ c hg hv hcm]
    by_cases hbig : c.mortgage_size > r.max_mortgage
    · left; rw [if_pos hbig]
    · rw [if_neg hbig]
      by_cases hacc2 : (c.monthly_payment ≤ r.max_monthly_payment ∧
          c.initial_cost ≤ r.savings) ∨
          (j = s.1.value.toRat ∧ c.monthly_payment < s.1.cost_monthly)
      · rw [if_pos hacc2]
        by_cases hlt : s.1.value.toRat < j
        · rw [if_pos hlt]
          right
          have hfst : (c.monthly_payment ≤ r.max_monthly_payment ∧
              c.initial_cost ≤ r.savings) := by
            rcases hacc2 with hx | hx
            · exact hx
            · exact absurd hx.1 (ne_of_gt hlt)
          exact ⟨⟨builtMortgage f r (.pfloat j), c, hg, hv, hcm, hbig, hfst.1, hfst.2⟩,
            hlt, builtMortgage f r (.pfloat j), c, rfl⟩
        · left; rw [if_neg hlt]
      · left; rw [if_neg hacc2]

/-- Running the outer loop from a good best record over positive,
increasing candidates below the bound neither errors nor loses ground:
it ends with a good best record strictly below the (possibly clamped)
returned upper bound. -/
theorem outerLoop_run (k : ℕ) (fin : FinDict) (r : RestLoaded) (f : FinLoaded)
    (hf : loadFinancing fin = .ok f) (hcc : ¬ (f.closing_cost - 1 = 0))
    (hr : loadRestrictions (restToDict r) = .ok r) :
    ∀ (js : List ℚ) (ub : ℚ) (best : BestRec), js.Pairwise (· < ·) →
      (∀ j ∈ js, 0 < j ∧ j < ub) → (∀ j ∈ js, best.value.toRat < j) →
      goodBest fin r best → best.value.toRat < ub →
      ∃ best1 ub1, outerLoop (k + 1) fin r js ub best = .ok (best1, ub1) ∧
        goodBest fin r best1 ∧ best.value.toRat ≤ best1.value.toRat ∧
        best1.value.toRat < ub1 ∧ ub1 ≤ ub := by
  intro js
  induction js with
  | nil =>
    intro ub best _ _ _ hgood hub
    exact ⟨best, ub, rfl, hgood, le_refl _, hub, le_refl _⟩
  | cons j0 rest ih =>
    intro ub best hpw hbounds hlt hgood hub
    have hj0pos : 0 < j0 := (hbounds j0 (List.mem_cons_self _ _)).1
    have hj0ub : j0 < ub := (hbounds j0 (List.mem_cons_self _ _)).2
    have hlt0 : best.value.toRat < j0 := hlt j0 (List.mem_cons_self _ _)
    rcases innerBody_run_total fin r f hf hcc hr j0 hj0pos (best, false) with hb | ⟨hacc, _, m, c, hb⟩
    · have hN : innerN fin r j0 (k + 1) (best, false) = .ok (best, false) := by
        rw [innerN_succ]
        exact innerN_one fin r j0 _ _ hb
      unfold outerLoop
      rw [hN]
      exact ⟨best, j0, rfl, hgood, le_refl _, hlt0, le_of_lt hj0ub⟩
    · have hN : innerN fin r j0 (k + 1) (best, false) =
          .ok (⟨.pfloat j0, m, c.monthly_payment⟩, true) := by
        rw [innerN_succ]
        exact innerN_one fin r j0 _ _ hb
      unfold outerLoop
      rw [hN]
      dsimp only
      have hpw2 := List.pairwise_cons.mp hpw
      obtain ⟨best1, ub1, hrun, hgood1, hle1, hlt1, hub1⟩ :=
        ih ub ⟨.pfloat j0, m, c.monthly_payment⟩ hpw2.2
          (fun j hj => hbounds j (List.mem_cons_of_mem _ hj))
          (fun j hj => hpw2.1 j hj)
          (Or.inr ⟨j0, rfl, hj0pos, hacc⟩) hj0ub
      exact ⟨best1, ub1, hrun, hgood1, le_trans (le_of_lt hlt0) hle1, hlt1, hub1⟩

/-- Running the outer loop from the initial record when the first
candidate is accepted: the result records an accepted candidate. -/
theorem outerLoop_run_first (k : ℕ) (fin : FinDict) (r : RestLoaded) (f : FinLoaded)
    (hf : loadFinancing fin = .ok f) (hcc : ¬ (f.closing_cost - 1 = 0))
    (hr : loadRestrictions (restToDict r) = .ok r) (j0 : ℚ) (rest : List ℚ) (ub : ℚ)
    (hpw : (j0 :: rest).Pairwise (· < ·))
    (hbounds : ∀ j ∈ j0 :: rest, 0 < j ∧ j < ub)
    (hacc : acceptsCandidate fin r j0) :
    ∃ q1 best1 ub1, outerLoop (k + 1) fin r (j0 :: rest) ub bestInit = .ok (best1, ub1) ∧
      best1.value = .pfloat q1 ∧ 0 < q1 ∧ acceptsCandidate fin r q1 ∧
      q1 < ub1 ∧ ub1 ≤ ub := by
  have hj0pos : 0 < j0 := (hbounds j0 (List.mem_cons_self _ _)).1
  have hj0ub : j0 < ub := (hbounds j0 (List.mem_cons_self _ _)).2
  have hlt0 : bestInit.value.toRat < j0 := by rw [bestInit_value_toRat]; exact hj0pos
  obtain ⟨m, c, _, _, hN⟩ := innerN_run_accept fin r j0 k (bestInit, false) hacc hlt0
  unfold outerLoop
  rw [hN]
  dsimp only
  have hpw2 := List.pairwise_cons.mp hpw
  obtain ⟨best1, ub1, hrun, hgood1, hle1, hlt1, hub1⟩ :=
    outerLoop_run k fin r f hf hcc hr rest ub ⟨.pfloat j0, m, c.monthly_payment⟩ hpw2.2
      (fun j hj => hbounds j (List.mem_cons_of_mem _ hj))
      (fun j hj => hpw2.1 j hj)
      (Or.inr ⟨j0, rfl, hj0pos, hacc⟩) hj0ub
  rcases hgood1 with hbad | ⟨q1, hq1, hq1pos, hq1acc⟩
  · rw [hbad] at hle1
    rw [bestInit_value_toRat] at hle1
    exact absurd (lt_of_lt_of_le hj0pos hle1) (by simp)
  · refine ⟨q1, best1, ub1, hrun, hq1, hq1pos, hq1acc, ?_, hub1⟩
    rw [hq1] at hlt1
    exact hlt1

/-- A search level whose step is below 50 clamps the step to the int 1
and returns its loop's best mortgage: it terminates with no further
recursion, whatever fuel remains. -/
theorem optimizeFuelGen_level_clamped (k n : ℕ) (fin : FinDict) (f : FinLoaded)
    (r : RestLoaded) (hf : loadFinancing fin = .ok f) (hcc : ¬ (f.closing_cost - 1 = 0))
    (hr : loadRestrictions (restToDict r) = .ok r) (st q ub : ℚ)
    (hst50 : st < 50) (hq : 0 < q) (hacc : acceptsCandidate fin r q)
    (hub : q < ub) :
    ∃ m, optimizeFuelGen (k + 1) (n + 1) fin (restToDict r) (.pfloat q) (.pfloat ub)
      (.pfloat st) = some (.ok m) := by
  unfold optimizeFuelGen
  rw [hr]
  dsimp only
  rw [if_neg (show ¬ (PyNum.isLit 0 (.pfloat q) = true) from by simp [PyNum.isLit])]
  dsimp only [PyNum.toRat]
  rw [if_pos hst50]
  simp only [PyNum.toRat, Int.cast_one]
  obtain ⟨rest, hjs⟩ := arangeQ_cons q ub 1 one_pos hub
  rw [hjs]
  obtain ⟨q1, best1, ub1, hrun, hq1, hq1pos, hq1acc, hlt1, hub1⟩ :=
    outerLoop_run_first k fin r f hf hcc hr q rest ub
      (hjs ▸ arangeQ_pairwise q ub 1 one_pos)
      (fun j hj => ⟨lt_of_lt_of_le hq (arangeQ_ge q ub 1 j one_pos (hjs ▸ hj)),
        arangeQ_lt_stop q ub 1 j one_pos (hjs ▸ hj)⟩)
      hacc
  rw [hrun]
  dsimp only
  rw [if_pos (show PyNum.isLit 1 (.pint 1) = true from rfl)]
  exact ⟨best1.mortgage, rfl⟩

/-- A search level whose step halves at most `n` more times before
dropping below 50 terminates within `n+1` call frames, provided its
lower bound is a positive accepted candidate below its upper bound. -/
theorem optimizeFuelGen_level (k : ℕ) (fin : FinDict) (f : FinLoaded) (r : RestLoaded)
    (hf : loadFinancing fin = .ok f) (hcc : ¬ (f.closing_cost - 1 = 0))
    (hr : loadRestrictions (restToDict r) = .ok r) :
    ∀ (n : ℕ) (st q ub : ℚ), 0 < st → st < 50 * 2 ^ n → 0 < q →
      acceptsCandidate fin r q → q < ub →
      ∃ m, optimizeFuelGen (k + 1) (n + 1) fin (restToDict r) (.pfloat q) (.pfloat ub)
        (.pfloat st) = some (.ok m) := by
  intro n
  induction n with
  | zero =>
    intro st q ub hst hst50 hq hacc hub
    exact optimizeFuelGen_level_clamped k 0 fin f r hf hcc hr st q ub
      (by rw [pow_zero, mul_one] at hst50; exact hst50) hq hacc hub
  | succ n ih =>
    intro st q ub hst hst50 hq hacc hub
    by_cases hst50a : st < 50
    · exact optimizeFuelGen_level_clamped k (n + 1) fin f r hf hcc hr st q ub
        hst50a hq hacc hub
    · unfold optimizeFuelGen
      rw [hr]
      dsimp only
      rw [if_neg (show ¬ (PyNum.isLit 0 (.pfloat q) = true) from by simp [PyNum.isLit])]
      dsimp only [PyNum.toRat]
      rw [if_neg hst50a]
      obtain ⟨rest, hjs⟩ := arangeQ_cons q ub st (lt_of_lt_of_le (by norm_num)
        (not_lt.mp hst50a)) hub
      rw [hjs]
      have hstpos : (0:ℚ) < st := hst
      obtain ⟨q1, best1, ub1, hrun, hq1, hq1pos, hq1acc, hlt1, hub1⟩ :=
        outerLoop_run_first k fin r f hf hcc hr q rest ub
          (hjs ▸ arangeQ_pairwise q ub st hstpos)
          (fun j hj => ⟨lt_of_lt_of_le hq (arangeQ_ge q ub st j hstpos (hjs ▸ hj)),
            arangeQ_lt_stop q ub st j hstpos (hjs ▸ hj)⟩)
          hacc
      rw [hrun]
      dsimp only
      rw [if_neg (show ¬ (PyNum.isLit 1 (.pfloat st) = true) from by simp [PyNum.isLit])]
      rw [hq1]
      exact ih (st / 2) q1 ub1 (by linarith) (by rw [pow_succ] at hst50; linarith)
        hq1pos hq1acc hlt1

/-- Claim C3 (amended): on validated restrictions whose first candidate
home value (`j = savings`) is accepted — and with `savings < 9999999` so
the entry interval is nonempty — `optimize` terminates, with recursion
depth exactly 12 call frames: the entry frame (step 100000) plus 11
recursive frames halving the step (50000, …, 48.828125, the last
clamped to 1 and returning).  The bound is not unconditional: on some
validated restrictions the search never terminates (see the
counterexample). -/
theorem optimize_terminates_in_12_frames (fin : FinDict) (rd : RestDict) (f : FinLoaded)
    (r : RestLoaded) (hf : loadFinancing fin = .ok f) (hcc : f.closing_cost ≠ 1)
    (hr : loadRestrictions rd = .ok r) (hs : r.savings < 9999999)
    (hacc : acceptsCandidate fin r r.savings) :
    ∃ m, optimizeFuel 12 fin rd (.pint 0) (.pint 0) (.pint 0) = some (.ok m) := by
  have hcc0 : ¬ (f.closing_cost - 1 = 0) := sub_ne_zero_of_ne hcc
  have hsav := loadRestrictions_savings rd r hr
  have hrid := loadRestrictions_restToDict rd r hr
  unfold optimizeFuel
  rw [innerCount_eq]
  show ∃ m, optimizeFuelGen 960 (11 + 1) fin rd (.pint 0) (.pint 0) (.pint 0) =
    some (.ok m)
  unfold optimizeFuelGen
  rw [hr]
  dsimp only
  rw [if_pos (show PyNum.isLit 0 (.pint 0) = true from rfl)]
  dsimp only
  rw [if_neg (show ¬ ((PyNum.pint 100000).toRat < 50) from by norm_num [PyNum.toRat])]
  have h100 : (PyNum.pint 100000).toRat = 100000 := by norm_num [PyNum.toRat]
  rw [h100]
  obtain ⟨rest, hjs⟩ := arangeQ_cons r.savings 9999999 100000 (by norm_num) hs
  rw [hjs]
  obtain ⟨q1, best1, ub1, hrun, hq1, hq1pos, hq1acc, hlt1, hub1⟩ :=
    outerLoop_run_first 959 fin r f hf hcc0 hrid r.savings rest 9999999
      (hjs ▸ arangeQ_pairwise _ _ _ (by norm_num))
      (fun j hj => ⟨lt_of_lt_of_le (by linarith) (arangeQ_ge _ _ _ j (by norm_num)
          (hjs ▸ hj)),
        arangeQ_lt_stop _ _ _ j (by norm_num) (hjs ▸ hj)⟩)
      hacc
  rw [hrun]
  dsimp only
  rw [if_neg (show ¬ (PyNum.isLit 1 (.pint 100000) = true) from by simp [PyNum.isLit])]
  rw [hq1]
  have h50k : (100000:ℚ) / 2 = 50000 := by norm_num
  rw [h50k]
  exact optimizeFuelGen_level 959 fin f r hf hcc0 hrid 10 50000 q1 ub1 (by norm_num)
    (by norm_num) hq1pos hq1acc hlt1

/-- Witness for C3: savings 50000 with a generous monthly cap and zero
interest terminates within the 12-frame fuel. -/
theorem optimize_terminates_in_12_frames_witness :
    ∃ m, optimizeFuel 12 ⟨some 0, none, none, none⟩
      ⟨some 50000, some 1000000, none, none, none⟩ (.pint 0) (.pint 0) (.pint 0) =
      some (.ok m) := by
  apply optimize_terminates_in_12_frames ⟨some 0, none, none, none⟩
    ⟨some 50000, some 1000000, none, none, none⟩ ⟨0, 360, 1/20, 0⟩
    ⟨50000, 1000000, 999999999999999999, 0, 1/80⟩
    (by with_unfolding_all rfl) (by norm_num) (by with_unfolding_all rfl) (by norm_num)
  refine ⟨⟨.pfloat 50000, ⟨some 0, some 360, some (1/20), some 50000⟩, ⟨50000, 1/80, 0⟩⟩,
    ⟨50000, 0, 50000, 1, 0, 0, 0, 625/12, 175/12, 0, 200/3⟩,
    by with_unfolding_all rfl, by with_unfolding_all rfl, by with_unfolding_all rfl,
    by norm_num, by norm_num, by norm_num⟩

/-- `loadFinancing` fails (with `ValueError`) exactly on a missing
interest rate. -/
theorem loadFinancing_none (fin : FinDict) (h : fin.interest_rate = none) :
    loadFinancing fin = .error .valueError := by
  unfold loadFinancing
  rw [h]

/-- `loadFinancing` succeeds when the interest rate is present. -/
theorem loadFinancing_some (fin : FinDict) (ir : ℚ) (h : fin.interest_rate = some ir) :
    ∃ f, loadFinancing fin = .ok f := by
  unfold loadFinancing
  rw [h]
  exact ⟨_, rfl⟩

/-- A loaded restrictions dict reports the caller's savings key. -/
theorem loadRestrictions_savings_key (rd : RestDict) (r : RestLoaded)
    (h : loadRestrictions rd = .ok r) : rd.savings = some r.savings := by
  unfold loadRestrictions at h
  rcases hs : rd.savings with _ | s <;> rw [hs] at h <;> dsimp only at h
  · exact absurd h (by simp)
  · split at h
    · exact absurd h (by simp)
    · split at h
      · exact absurd h (by simp)
      · injection h with h
        rw [← h]

/-- `loadRestrictions` only ever raises `ValueError`, and only on the
three documented conditions. -/
theorem loadRestrictions_err_conditions (rd : RestDict) (e : PyErr)
    (h : loadRestrictions rd = .error e) :
    e = .valueError ∧ (rd.savings = none ∨ (∃ s, rd.savings = some s ∧ s < 10000) ∨
      (rd.max_monthly_payment = none ∧ rd.max_mortgage = none)) := by
  unfold loadRestrictions at h
  rcases hs : rd.savings with _ | s <;> rw [hs] at h <;> dsimp only at h
  · injection h with h
    exact ⟨h.symm, Or.inl rfl⟩
  · split at h
    · injection h with h
      exact ⟨h.symm, Or.inr (Or.inl ⟨s, rfl, by assumption⟩)⟩
    · split at h
      · injection h with h
        refine ⟨h.symm, Or.inr (Or.inr ?_)⟩
        rename_i hb
        rw [Bool.and_eq_true, Option.isNone_iff_eq_none, Option.isNone_iff_eq_none] at hb
        exact hb
      · exact absurd h (by simp)

/-- Any of the three restriction conditions raises `ValueError`. -/
theorem loadRestrictions_err_of_conditions (rd : RestDict)
    (h : rd.savings = none ∨ (∃ s, rd.savings = some s ∧ s < 10000) ∨
      (rd.max_monthly_payment = none ∧ rd.max_mortgage = none)) :
    loadRestrictions rd = .error .valueError := by
  unfold loadRestrictions
  rcases hs : rd.savings with _ | s
  · rfl
  · dsimp only
    rcases h with h | ⟨s2, hs2, hlt⟩ | ⟨h1, h2⟩
    · rw [hs] at h; exact absurd h (by simp)
    · rw [hs] at hs2
      injection hs2 with hs2
      subst hs2
      rw [if_pos hlt]
    · by_cases hlt : s < 10000
      · rw [if_pos hlt]
      · rw [if_neg hlt, if_pos (by rw [h1, h2]; rfl)]

/-- `Mortgage.cost` never raises `ValueError`. -/
theorem cost_no_valueError (m : Mortgage) : m.cost ≠ .error .valueError := by
  intro h
  unfold Mortgage.cost at h
  split at h
  · exact absurd h (by simp)
  · simp only [bind, Except.bind, getKey] at h
    rcases hdp : m.financing.down_payment with _ | dp <;> rw [hdp] at h <;>
      dsimp only at h
    · exact absurd h (by simp)
    rcases hcx : m.financing.closing_cost with _ | cc <;> rw [hcx] at h <;>
      dsimp only at h
    · exact absurd h (by simp)
    split at h
    · exact absurd h (by simp)
    rcases hir : m.financing.interest_rate with _ | ir <;> rw [hir] at h <;>
      dsimp only at h
    · exact absurd h (by simp)
    exact absurd h (by simp)

/-- With both loaders succeeding, `getMortgage` can only raise
`ZeroDivisionError` (on a unit closing-cost rate). -/
theorem getMortgage_err_classify (fin : FinDict) (rdx : RestDict) (f : FinLoaded)
    (rx : RestLoaded) (hv : PyNum) (e : PyErr) (hf : loadFinancing fin = .ok f)
    (hr : loadRestrictions rdx = .ok rx) (h : getMortgage fin hv rdx = .error e) :
    e = .zeroDivisionError := by
  unfold getMortgage at h
  rw [hf, hr] at h
  simp only [bind, Except.bind] at h
  split at h
  · injection h with h
    exact h.symm
  · split at h <;> exact absurd h (by simp)

/-- With the loaders succeeding, the inner body never raises
`ValueError` (its only possible errors are `ZeroDivisionError` and
`KeyError`). -/
theorem innerBody_no_valueError (fin : FinDict) (r : RestLoaded) (f : FinLoaded)
    (hf : loadFinancing fin = .ok f) (hrid : loadRestrictions (restToDict r) = .ok r)
    (j : ℚ) (s : BestRec × Bool) : innerBody fin r j s ≠ .error .valueError := by
  intro h
  cases hg : getMortgage fin (.pfloat j) (restToDict r) with
  | error e =>
    rw [innerBody_eval_err fin r j s e hg] at h
    injection h with h
    subst h
    have := getMortgage_err_classify fin (restToDict r) f r (.pfloat j) _ hf hrid hg
    exact absurd this (by simp)
  | ok m =>
    by_cases hv : m.isValid = true
    case neg =>
      rw [Bool.not_eq_true] at hv
      rw [innerBody_eval_invalid fin r j s m hg hv] at h
      exact absurd h (by simp)
    case pos =>
      cases hc : m.cost with
      | error e =>
        rw [innerBody_eval_costerr fin r j s m e hg hv hc] at h
        injection h with h
        subst h
        exact cost_no_valueError m hc
      | ok cres =>
        cases cres with
        | empty =>
          rw [innerBody_eval_empty fin r j s m hg hv hc] at h
          exact absurd h (by simp)
        | full c =>
          rw [innerBody_eval_full fin r j s m c hg hv hc] at h
          repeat' split at h
          all_goals simp_all

/-- The iterated inner sweep never raises `ValueError`. -/
theorem innerN_no_valueError (fin : FinDict) (r : RestLoaded) (f : FinLoaded)
    (hf : loadFinancing fin = .ok f) (hrid : loadRestrictions (restToDict r) = .ok r)
    (j : ℚ) (k : ℕ) : ∀ s, innerN fin r j k s ≠ .error .valueError := by
  induction k with
  | zero => intro s h; exact absurd h (by simp [innerN])
  | succ k ih =>
    intro s h
    unfold innerN at h
    cases hb : innerBody fin r j s with
    | error e =>
      rw [hb] at h
      injection h with h
      subst h
      exact innerBody_no_valueError fin r f hf hrid j s hb
    | ok s1 =>
      rw [hb] at h
      exact ih s1 h

/-- The outer loop never raises `ValueError`. -/
theorem outerLoop_no_valueError (ic : ℕ) (fin : FinDict) (r : RestLoaded) (f : FinLoaded)
    (hf : loadFinancing fin = .ok f) (hrid : loadRestrictions (restToDict r) = .ok r) :
    ∀ (js : List ℚ) (ub : ℚ) (best : BestRec),
      outerLoop ic fin r js ub best ≠ .error .valueError := by
  intro js
  induction js with
  | nil => intro ub best h; exact absurd h (by simp [outerLoop])
  | cons j rest ih =>
    intro ub best h
    unfold outerLoop at h
    cases hb : innerN fin r j ic (best, false) with
    | error e =>
      rw [hb] at h
      injection h with h
      subst h
      exact innerN_no_valueError fin r f hf hrid j ic (best, false) hb
    | ok p =>
      rw [hb] at h
      rcases p with ⟨b1, found⟩
      dsimp only at h
      cases found with
      | true => exact ih ub b1 h
      | false => exact absurd h (by simp)

/-- With the interest rate present and the restrictions valid, the
search never raises `ValueError`, whatever the fuel (other errors, such
as `ZeroDivisionError` on a unit closing-cost rate, remain possible). -/
theorem optimizeFuelGen_no_valueError (ic : ℕ) (fin : FinDict) (f : FinLoaded)
    (hf : loadFinancing fin = .ok f) (n : ℕ) :
    ∀ (rd : RestDict) (r : RestLoaded) (lb ub st : PyNum), loadRestrictions rd = .ok r →
      optimizeFuelGen ic n fin rd lb ub st ≠ some (.error .valueError) := by
  induction n with
  | zero => intro rd r lb ub st _ h; exact absurd h (by simp [optimizeFuelGen])
  | succ n ih =>
    intro rd r lb ub st hr h
    have hrid := loadRestrictions_restToDict rd r hr
    unfold optimizeFuelGen at h
    rw [hr] at h
    dsimp only at h
    generalize hT : (if lb.isLit 0 = true
      then (r.savings, (9999999:ℚ), PyNum.pint 100000)
      else (lb.toRat, ub.toRat, st)) = T at h
    obtain ⟨lb2, ub2, st2⟩ := T
    dsimp only at h
    generalize hS : (if st2.toRat < 50 then PyNum.pint 1 else st2) = S at h
    cases ho : outerLoop ic fin r (arangeQ lb2 ub2 S.toRat) ub2 bestInit with
    | error e =>
      rw [ho] at h
      injection h with h
      injection h with h
      subst h
      exact outerLoop_no_valueError ic fin r f hf hrid _ _ _ ho
    | ok p =>
      rw [ho] at h
      rcases p with ⟨best, ubx⟩
      dsimp only at h
      split at h
      · exact absurd h (by simp)
      · exact ih (restToDict r) r best.value (.pfloat ubx) (.pfloat (S.toRat / 2)) hrid h

/-- A restrictions-validation error surfaces immediately as the search's
result. -/
theorem optimizeFuelGen_of_load_error (ic n : ℕ) (fin : FinDict) (rd : RestDict)
    (lb ub st : PyNum) (e : PyErr) (h : loadRestrictions rd = .error e) :
    optimizeFuelGen ic (n + 1) fin rd lb ub st = some (.error e) := by
  unfold optimizeFuelGen
  rw [h]

/-- With valid restrictions whose savings land in `[10000, 9999999)` but
a financing dict lacking `interest_rate`, the first candidate's mortgage
derivation raises `ValueError` from inside the search loop. -/
theorem optimizeFuelGen_interest_error (k n : ℕ) (fin : FinDict) (rd : RestDict)
    (r : RestLoaded) (ub st : PyNum) (hr : loadRestrictions rd = .ok r)
    (hint : loadFinancing fin = .error .valueError) (hs : r.savings < 9999999) :
    optimizeFuelGen (k + 1) (n + 1) fin rd (.pint 0) ub st =
      some (.error .valueError) := by
  unfold optimizeFuelGen
  rw [hr]
  dsimp only
  rw [if_pos (show PyNum.isLit 0 (.pint 0) = true from rfl)]
  dsimp only
  rw [if_neg (show ¬ ((PyNum.pint 100000).toRat < 50) from by norm_num [PyNum.toRat])]
  have h100 : (PyNum.pint 100000).toRat = 100000 := by norm_num [PyNum.toRat]
  rw [h100]
  obtain ⟨rest, hjs⟩ := arangeQ_cons r.savings 9999999 100000 (by norm_num) hs
  rw [hjs]
  have hgm : getMortgage fin (.pfloat r.savings) (restToDict r) = .error .valueError := by
    unfold getMortgage
    rw [hint]
    rfl
  have hN : innerN fin r r.savings (k + 1) (bestInit, false) = .error .valueError := by
    rw [innerN_succ]
    unfold innerN
    rw [innerBody_eval_err fin r r.savings (bestInit, false) _ hgm]
  unfold outerLoop
  rw [hN]

/-- Claim C8 (amended): the search's `ValueError` behaviour.  The three
restriction checks (missing savings, savings below 10000, both caps
missing) raise immediately from `loadRestrictions`; a missing
`interest_rate` raises only once the loop body runs its first candidate
(which requires the restrictions to validate and `savings < 9999999` —
with `savings ≥ 9999999` the loop is empty and the search instead
recurses forever, raising nothing). -/
theorem optimize_validation_error_iff (fin : FinDict) (rd : RestDict) :
    (∃ n, optimizeFuel n fin rd (.pint 0) (.pint 0) (.pint 0) =
      some (.error .valueError)) ↔
    (rd.savings = none ∨ (∃ s, rd.savings = some s ∧ s < 10000) ∨
      (rd.max_monthly_payment = none ∧ rd.max_mortgage = none) ∨
      (fin.interest_rate = none ∧
        ∃ s, rd.savings = some s ∧ 10000 ≤ s ∧ s < 9999999)) := by
  constructor
  · rintro ⟨n, hn⟩
    unfold optimizeFuel at hn
    cases hre : loadRestrictions rd with
    | error e =>
      obtain ⟨_, hconds⟩ := loadRestrictions_err_conditions rd e hre
      rcases hconds with h | h | h
      · exact Or.inl h
      · exact Or.inr (Or.inl h)
      · exact Or.inr (Or.inr (Or.inl h))
    | ok r =>
      cases hi : fin.interest_rate with
      | some ir =>
        obtain ⟨f, hfok⟩ := loadFinancing_some fin ir hi
        exact absurd hn
          (optimizeFuelGen_no_valueError innerCount fin f hfok n rd r _ _ _ hre)
      | none =>
        by_cases hs : r.savings < 9999999
        · exact Or.inr (Or.inr (Or.inr ⟨rfl, r.savings,
            loadRestrictions_savings_key rd r hre,
            loadRestrictions_savings rd r hre, hs⟩))
        · rw [optimizeFuelGen_none_of_big_savings innerCount n fin rd r
            (.pint 0) (.pint 0) hre (not_lt.mp hs)] at hn
          exact absurd hn (by simp)
  · intro h
    rcases h with h | h | h | ⟨hint, s, hsk, hge, hlt⟩
    · exact ⟨1, by
        unfold optimizeFuel
        exact optimizeFuelGen_of_load_error innerCount 0 fin rd _ _ _ _
          (loadRestrictions_err_of_conditions rd (Or.inl h))⟩
    · exact ⟨1, by
        unfold optimizeFuel
        exact optimizeFuelGen_of_load_error innerCount 0 fin rd _ _ _ _
          (loadRestrictions_err_of_conditions rd (Or.inr (Or.inl h)))⟩
    · exact ⟨1, by
        unfold optimizeFuel
        exact optimizeFuelGen_of_load_error innerCount 0 fin rd _ _ _ _
          (loadRestrictions_err_of_conditions rd (Or.inr (Or.inr h)))⟩
    · by_cases hcaps : rd.max_monthly_payment = none ∧ rd.max_mortgage = none
      · exact ⟨1, by
          unfold optimizeFuel
          exact optimizeFuelGen_of_load_error innerCount 0 fin rd _ _ _ _
            (loadRestrictions_err_of_conditions rd (Or.inr (Or.inr hcaps)))⟩
      · have hok : loadRestrictions rd = .ok
            ⟨s, rd.max_monthly_payment.getD 999999999999999999,
              rd.max_mortgage.getD 999999999999999999, rd.hoa.getD 0,
              rd.tax_rate.getD 0.0125⟩ := by
          unfold loadRestrictions
          rw [hsk]
          dsimp only
          rw [if_neg (not_lt.mpr hge), if_neg (show
            ¬ ((rd.max_monthly_payment.isNone && rd.max_mortgage.isNone) = true) from by
              rw [Bool.and_eq_true, Option.isNone_iff_eq_none,
                Option.isNone_iff_eq_none]
              exact hcaps)]
        exact ⟨1, by
          unfold optimizeFuel
          rw [innerCount_eq]
          exact optimizeFuelGen_interest_error 959 0 fin rd _ (.pint 0) (.pint 0)
            hok (loadFinancing_none fin hint) hlt⟩

/-- Counterexample to C8 as stated: financing lacking `interest_rate`
does not necessarily raise — with validated savings of 10000000 the
search loop is empty and `optimize` recurses forever without raising
anything. -/
theorem optimize_missing_interest_never_raises :
    (⟨none, none, none, none⟩ : FinDict).interest_rate = none ∧
    loadRestrictions ⟨some 10000000, none, some 100000, none, none⟩ =
      .ok ⟨10000000, 999999999999999999, 100000, 0, 1/80⟩ ∧
    ¬ ∃ n res, optimizeFuel n ⟨none, none, none, none⟩
      ⟨some 10000000, none, some 100000, none, none⟩ (.pint 0) (.pint 0) (.pint 0) =
      some res := by
  refine ⟨rfl, by with_unfolding_all rfl, ?_⟩
  rintro ⟨n, res, h⟩
  unfold optimizeFuel at h
  rw [optimizeFuelGen_none_of_big_savings innerCount n _ _
    ⟨10000000, 999999999999999999, 100000, 0, 1/80⟩ (.pint 0) (.pint 0)
    (by with_unfolding_all rfl) (by norm_num)] at h
  exact absurd h (by simp)

/-- Witness for C8: restrictions missing `savings` raise `ValueError`. -/
theorem optimize_validation_error_iff_witness :
    ∃ n, optimizeFuel n ⟨some (6/100), none, none, none⟩
      ⟨none, none, none, none, none⟩ (.pint 0) (.pint 0) (.pint 0) =
      some (.error .valueError) :=
  (optimize_validation_error_iff ⟨some (6/100), none, none, none⟩
    ⟨none, none, none, none, none⟩).mpr (Or.inl rfl)
